import Mathlib

/-!
Verification of the MVP submission service (`src/server.js`).

The server is a single Express endpoint `POST /submit-mvp`: a transporter
guard, a push-based field validator accumulating error strings, a formatter
producing two email bodies, a concurrent dispatch of two mails, and a catch
block mapping delivery errors to user-facing messages.

We embed the handler shallowly: JSON request values become the inductive
`JVal`, the request body becomes `Payload` (fields optional, i.e. possibly
`undefined`), JavaScript exceptions (calling `.trim()` / `.includes()` on a
non-string) become `Except JsErr`, and the handler becomes a pure function
from its nondeterministic inputs (configuration flag, deployment mode,
generated id and date, delivery outcome) to an HTTP response plus the list
of outbound mails it dispatched.
-/

namespace Mvp

/-- A JavaScript JSON value as it can appear in the parsed request body. -/
inductive JVal where
  | str (s : String)
  | num (n : Int)
  | bool (b : Bool)
  | null
  | arr (elems : List JVal)

/-- JavaScript whitespace (the `\s` class / `String.prototype.trim` set),
restricted to the code points that can realistically occur here. -/
def jsWhitespace (c : Char) : Bool :=
  c = ' ' || c = '\t' || c = '\n' || c = '\r' || c = '\x0b' || c = '\x0c' || c = ' '

/-- `String.prototype.trim`: strip leading and trailing whitespace. -/
def jsTrim (s : String) : String :=
  String.mk (((s.data.dropWhile jsWhitespace).reverse.dropWhile jsWhitespace).reverse)

/-- Truthiness of a possibly-absent JS value (`undefined`, `null`, `""`,
`0` and `false` are falsy; arrays are always truthy). -/
def jsTruthy : Option JVal → Bool
  | none => false
  | some JVal.null => false
  | some (JVal.str s) => s ≠ ""
  | some (JVal.num n) => n ≠ 0
  | some (JVal.bool b) => b
  | some (JVal.arr _) => true

/-- Does the second list start with the first? -/
def startsWithChars : List Char → List Char → Bool
  | [], _ => true
  | _ :: _, [] => false
  | a :: as, b :: bs => a = b && startsWithChars as bs

/-- Does `sub` occur as a contiguous run inside the list? -/
def containsChars (sub : List Char) : List Char → Bool
  | [] => startsWithChars sub []
  | c :: rest => startsWithChars sub (c :: rest) || containsChars sub rest

/-- `String.prototype.includes`: substring containment. -/
def jsIncludes (s sub : String) : Bool := containsChars sub.data s.data

/-- A JavaScript `Error` as observed by the catch block: a `message`
string (`""` standing for an absent message) and an optional `code`. -/
structure JsErr where
  message : String
  code : Option String
  deriving DecidableEq

/-- The `TypeError` raised by calling `.trim()` on a non-string value.
(The browser-specific text varies; all that matters downstream is that it
does not contain `Unauthorized` and carries no `code`.) -/
def trimTypeError : JsErr := { message := "trim is not a function", code := none }

/-- The `TypeError` raised by calling `.includes()` on a non-string value. -/
def includesTypeError : JsErr := { message := "includes is not a function", code := none }

/-- `.trim()` on a JS value: succeeds only on strings. -/
def jsTrimE : JVal → Except JsErr String
  | JVal.str s => Except.ok (jsTrim s)
  | _ => Except.error trimTypeError

/-! ## The email regular expression

`/^[^\s@]+@[^\s@]+\.[^\s@]+$/` from `server.js` line 105, implemented as an
executable matcher on the character list. -/

/-- A character allowed by the `[^\s@]` class. -/
def okChar (c : Char) : Bool := !jsWhitespace c && c != '@'

/-- Split a character list at the first occurrence of `a`. -/
def breakAt (a : Char) : List Char → Option (List Char × List Char)
  | [] => none
  | c :: rest =>
    if c = a then some ([], rest)
    else
      match breakAt a rest with
      | none => none
      | some (l, r) => some (c :: l, r)

/-- Is there a `'.'` at some position that is not the last one? -/
def hasMidDot : List Char → Bool
  | c :: c2 :: rest => c = '.' || hasMidDot (c2 :: rest)
  | _ => false

/-- Is there a `'.'` at some position that is neither first nor last? -/
def hasInternalDot : List Char → Bool
  | [] => false
  | _ :: rest => hasMidDot rest

/-- The test of `/^[^\s@]+@[^\s@]+\.[^\s@]+$/`: a non-empty run of
`[^\s@]` characters, one `'@'`, then a non-empty `[^\s@]` run containing a
dot with at least one character on each side. -/
def emailRegexTest (s : String) : Bool :=
  match breakAt '@' s.data with
  | none => false
  | some (l, d) => !l.isEmpty && l.all okChar && !d.isEmpty && d.all okChar && hasInternalDot d

/-! ## The request body -/

/-- The destructured request body fields (each possibly `undefined`). -/
structure Payload where
  teamName : Option JVal := none
  teamEmail : Option JVal := none
  projectTitle : Option JVal := none
  projectBackground : Option JVal := none
  problemStatement : Option JVal := none
  unsdgGoals : Option JVal := none
  teamMembers : Option JVal := none
  youtubeLink : Option JVal := none
  githubRepo : Option JVal := none

/-- `req.body[field]` for the keys used by the required-field loop. -/
def getField (p : Payload) : String → Option JVal
  | "teamName" => p.teamName
  | "teamEmail" => p.teamEmail
  | "projectTitle" => p.projectTitle
  | "projectBackground" => p.projectBackground
  | "problemStatement" => p.problemStatement
  | "youtubeLink" => p.youtubeLink
  | "githubRepo" => p.githubRepo
  | _ => none

/-- The `requiredFields` object: field key and display name, in insertion
order. -/
def requiredFields : List (String × String) :=
  [("teamName", "Team Name"),
   ("teamEmail", "Team Email Address"),
   ("projectTitle", "Project Title"),
   ("projectBackground", "Project Background"),
   ("problemStatement", "Problem Statement"),
   ("youtubeLink", "YouTube Link"),
   ("githubRepo", "GitHub Repository")]

def isArrOpt : Option JVal → Bool
  | some (JVal.arr _) => true
  | _ => false

def arrElemsOpt : Option JVal → List JVal
  | some (JVal.arr xs) => xs
  | _ => []

/-- `teamMembers.filter(m => m.trim())`: keeps entries whose trim is a
non-empty string; raises `TypeError` on a non-string entry. -/
def membersFilterE : List JVal → Except JsErr (List String)
  | [] => Except.ok []
  | JVal.str s :: rest => do
    let tl ← membersFilterE rest
    pure (if jsTrim s = "" then tl else s :: tl)
  | _ :: _ => Except.error trimTypeError

/-! ## The validator, as the source writes it: a mutable `errors` array and
a sequence of pushes. Each `pushX` function takes the current accumulated
list and returns the extended one (or the raised exception). -/

/-- The required-field loop (`server.js` lines 98–102):
`if (!req.body[field] || req.body[field].trim() === '') errors.push(displayName)`. -/
def pushRequired (p : Payload) : List (String × String) → List String → Except JsErr (List String)
  | [], errors => Except.ok errors
  | (field, displayName) :: rest, errors =>
    if !jsTruthy (getField p field) then
      pushRequired p rest (errors ++ [displayName])
    else
      match getField p field with
      | some (JVal.str s) =>
        if jsTrim s = "" then pushRequired p rest (errors ++ [displayName])
        else pushRequired p rest errors
      | _ => Except.error trimTypeError

/-- The teamEmail format check (lines 104–109). -/
def pushEmail (p : Payload) (errors : List String) : Except JsErr (List String) :=
  if jsTruthy p.teamEmail then
    match p.teamEmail with
    | some (JVal.str s) =>
      if emailRegexTest (jsTrim s) then Except.ok errors
      else Except.ok (errors ++ ["Team Email Address (must be a valid email format)"])
    | _ => Except.error trimTypeError
  else Except.ok errors

/-- The unsdgGoals check (lines 111–113). -/
def pushSdg (p : Payload) (errors : List String) : List String :=
  if !jsTruthy p.unsdgGoals || !isArrOpt p.unsdgGoals || (arrElemsOpt p.unsdgGoals).length = 0 then
    errors ++ ["UN Sustainable Development Goals (select at least one)"]
  else errors

/-- The teamMembers check (lines 115–117). -/
def pushMembers (p : Payload) (errors : List String) : Except JsErr (List String) :=
  if !jsTruthy p.teamMembers || !isArrOpt p.teamMembers then
    Except.ok (errors ++ ["Team Members (at least one member required)"])
  else do
    let kept ← membersFilterE (arrElemsOpt p.teamMembers)
    if kept.length = 0 then
      pure (errors ++ ["Team Members (at least one member required)"])
    else pure errors

/-- `.includes` on a JS value: succeeds only on strings. -/
def jsIncludesE (v : JVal) (sub : String) : Except JsErr Bool :=
  match v with
  | JVal.str s => Except.ok (jsIncludes s sub)
  | _ => Except.error includesTypeError

/-- The youtubeLink format check (lines 119–121). -/
def pushYt (p : Payload) (errors : List String) : Except JsErr (List String) :=
  if jsTruthy p.youtubeLink then do
    let hasYt ← jsIncludesE ((p.youtubeLink).getD JVal.null) "youtube.com"
    if hasYt then pure errors
    else do
      let hasBe ← jsIncludesE ((p.youtubeLink).getD JVal.null) "youtu.be"
      if hasBe then pure errors
      else pure (errors ++ ["YouTube Link (must be a valid YouTube URL)"])
  else Except.ok errors

/-- The githubRepo format check (lines 123–125). -/
def pushGh (p : Payload) (errors : List String) : Except JsErr (List String) :=
  if jsTruthy p.githubRepo then do
    let hasGh ← jsIncludesE ((p.githubRepo).getD JVal.null) "github.com"
    if hasGh then pure errors
    else pure (errors ++ ["GitHub Repository (must be a valid GitHub URL)"])
  else Except.ok errors

/-- The whole validation block (lines 96–125): the final contents of the
`errors` array, or the first raised exception. -/
def validateE (p : Payload) : Except JsErr (List String) := do
  let errors ← pushRequired p requiredFields []
  let errors ← pushEmail p errors
  let errors := pushSdg p errors
  let errors ← pushMembers p errors
  let errors ← pushYt p errors
  pushGh p errors

/-- The error list of a payload on which validation completes normally
(statement helper for concrete examples). -/
def errorsOf (p : Payload) : List String := ((validateE p).toOption).getD []

/-! ## The formatter and the two outbound mails (lines 136–257) -/

mutual

/-- JS template-literal stringification of a value (`String(v)`). -/
def jsToStr : JVal → String
  | JVal.str s => s
  | JVal.num n => toString n
  | JVal.bool b => if b then "true" else "false"
  | JVal.null => "null"
  | JVal.arr xs => String.intercalate "," (jsToStrElems xs)

/-- `Array.prototype.toString` element rendering (`null` renders empty). -/
def jsToStrElems : List JVal → List String
  | [] => []
  | JVal.null :: rest => "" :: jsToStrElems rest
  | v :: rest => jsToStr v :: jsToStrElems rest

end

/-- Template interpolation of a possibly-absent value. -/
def jsInterp : Option JVal → String
  | none => "undefined"
  | some v => jsToStr v

/-- String extraction for validated team-member entries (the success path
only ever reaches string entries, since `membersFilterE` has already
trimmed each of them without raising). -/
def asStr : JVal → String
  | JVal.str s => s
  | _ => ""

/-- `formattedMembers` (lines 146–149): filter the blank entries out, then
render `"${index + 1}. ${member.trim()}"` and join with newlines. -/
def formattedMembers (teamMembers : List String) : String :=
  String.intercalate "\n"
    (((teamMembers.filter (fun m => jsTrim m ≠ "")).enum).map
      (fun q => toString (q.1 + 1) ++ ". " ++ jsTrim q.2))

/-- `formattedSDGs` (lines 151–153): render `"${index + 1}. ${sdg}"` over
the raw entries and join with newlines. -/
def formattedSDGs (unsdgGoals : List JVal) : String :=
  String.intercalate "\n"
    ((unsdgGoals.enum).map (fun q => toString (q.1 + 1) ++ ". " ++ jsToStr q.2))

/-- `adminEmailBody` (lines 155–195). -/
def adminEmailBody (p : Payload) (submissionId submissionDate : String) : String :=
  jsTrim ("\nFUTURE TECH HACKATHON - MVP SUBMISSION\n" ++
    "Organized by FOCLIS - Faculty of Computing and Library Information Science\n" ++
    "Kabale University\n\n" ++
    "═══════════════════════════════════════\n\n" ++
    "📋 SUBMISSION DETAILS:\n" ++
    "Submission ID: " ++ submissionId ++ "\n" ++
    "Submitted: " ++ submissionDate ++ " (EAT)\n\n" ++
    "👥 TEAM INFORMATION:\n" ++
    "Team Name: " ++ jsInterp p.teamName ++ "\n" ++
    "Team Email: " ++ jsInterp p.teamEmail ++ "\n" ++
    "Project Title: " ++ jsInterp p.projectTitle ++ "\n\n" ++
    "📖 PROJECT BACKGROUND:\n" ++
    jsInterp p.projectBackground ++ "\n\n" ++
    "❗ PROBLEM STATEMENT:\n" ++
    jsInterp p.problemStatement ++ "\n\n" ++
    "🎯 UN SUSTAINABLE DEVELOPMENT GOALS:\n" ++
    formattedSDGs (arrElemsOpt p.unsdgGoals) ++ "\n\n" ++
    "👨‍💻 TEAM MEMBERS:\n" ++
    formattedMembers ((arrElemsOpt p.teamMembers).map asStr) ++ "\n\n" ++
    "🔗 PROJECT LINKS:\n" ++
    "🎥 YouTube Demo: " ++ jsInterp p.youtubeLink ++ "\n" ++
    "💻 GitHub Repository: " ++ jsInterp p.githubRepo ++ "\n\n" ++
    "═══════════════════════════════════════\n\n" ++
    "📧 Reply to team at: " ++ jsInterp p.teamEmail ++ "\n" ++
    "📞 This submission was automatically processed by the MVP Submission System.\n\n" ++
    "FOCLIS - Faculty of Computing and Library Information Science\n" ++
    "Kabale University\n" ++
    "Contact: cosaku10@gmail.com\n    ")

/-- `participantEmailBody` (lines 197–229). -/
def participantEmailBody (p : Payload) (submissionId submissionDate : String) : String :=
  jsTrim ("\nDear " ++ jsInterp p.teamName ++ " Team,\n\n" ++
    "✅ Your MVP submission has been successfully received!\n\n" ++
    "═══════════════════════════════════════\n\n" ++
    "📋 SUBMISSION CONFIRMATION:\n" ++
    "Project: " ++ jsInterp p.projectTitle ++ "\n" ++
    "Submission ID: " ++ submissionId ++ "\n" ++
    "Submitted: " ++ submissionDate ++ " (EAT)\n\n" ++
    "Your submission includes:\n" ++
    "✓ Project background and problem statement\n" ++
    "✓ " ++ toString (arrElemsOpt p.unsdgGoals).length ++ " UN SDG goal(s) selected\n" ++
    "✓ " ++ toString (((arrElemsOpt p.teamMembers).map asStr).filter
                (fun m => jsTrim m ≠ "")).length ++ " team member(s)\n" ++
    "✓ YouTube demonstration video\n" ++
    "✓ GitHub repository link\n\n" ++
    "═══════════════════════════════════════\n" ++
    "📧 NEED HELP?\n" ++
    "For any questions or concerns, please contact us at:\n" ++
    "cosaku10@gmail.com\n\n" ++
    "Thank you for participating in the Future Tech Hackathon!\n\n" ++
    "Best regards,\n" ++
    "FOCLIS - Faculty of Computing and Library Information Science\n" ++
    "Kabale University\n\n" ++
    "═══════════════════════════════════════\n" ++
    "This is an automated confirmation. Please do not reply to this email.\n    ")

attribute [irreducible] adminEmailBody participantEmailBody

/-- `.replace(/\n/g, '<br>')`: global single-character replacement. -/
def jsReplaceLF : List Char → List Char
  | [] => []
  | c :: rest => (if c = '\n' then "<br>".data else [c]) ++ jsReplaceLF rest

/-- One outbound message handed to `transporter.sendMail`. -/
structure Mail where
  fromAddr : String
  toAddr : Option JVal
  replyTo : Option JVal := none
  cc : Option String := none
  subject : String
  text : String
  html : String

/-- The admin notice (lines 236–244). -/
def buildAdminMail (p : Payload) (submissionId submissionDate : String) : Mail :=
  let body := adminEmailBody p submissionId submissionDate
  { fromAddr := "noreply@kbacomuniversity.ac.ug"
    toAddr := some (JVal.str "cosaku10@gmail.com")
    replyTo := p.teamEmail
    subject := "🚀 MVP Submission - " ++ jsInterp p.teamName ++ " - " ++ jsInterp p.projectTitle
    text := body
    html := String.mk (jsReplaceLF body.data) }

/-- The participant confirmation (lines 248–256). -/
def buildParticipantMail (p : Payload) (submissionId submissionDate : String) : Mail :=
  let body := participantEmailBody p submissionId submissionDate
  { fromAddr := "noreply@kbacomuniversity.ac.ug"
    toAddr := p.teamEmail
    cc := some "cosaku10@gmail.com"
    subject := "✅ MVP Submission Confirmed - " ++ jsInterp p.projectTitle
    text := body
    html := String.mk (jsReplaceLF body.data) }

/-! ## Responses and the handler -/

/-- The JSON body of a response, together with its status code. Absent
fields are `none`. -/
structure HttpResponse where
  status : Nat
  success : Bool
  message : String
  errors : Option (List String) := none
  error : Option String := none
  submissionId : Option String := none
  submissionDate : Option String := none
  teamName : Option JVal := none
  projectTitle : Option JVal := none

/-- Lines 63–69: the transporter guard's response. -/
def notConfiguredResponse : HttpResponse :=
  { status := 500, success := false
    message := "Email service not configured. Please contact administrator." }

/-- Lines 127–134: the validation-failure response. -/
def validationFailedResponse (errors : List String) : HttpResponse :=
  { status := 400, success := false, message := "Validation failed", errors := some errors }

/-- Lines 263–270: the success response. -/
def successResponse (p : Payload) (submissionId submissionDate : String) : HttpResponse :=
  { status := 200, success := true, message := "MVP submission received successfully!"
    submissionId := some submissionId, submissionDate := some submissionDate
    teamName := p.teamName, projectTitle := p.projectTitle }

/-- Lines 275–282: the catch block's `errorMessage` selection. -/
def deliveryErrorMessage (e : JsErr) : String :=
  if e.message != "" && jsIncludes e.message "Unauthorized" then
    "Email service configuration error. Please contact administrator."
  else if e.code = some "ENOTFOUND" then
    "Network connectivity issue. Please try again."
  else
    "An error occurred while processing your submission."

/-- Lines 284–288: the catch block's response; the raw `error.message` is
attached only when `NODE_ENV === 'development'`. -/
def catchResponse (mode : String) (e : JsErr) : HttpResponse :=
  { status := 500, success := false, message := deliveryErrorMessage e
    error := if mode = "development" then some e.message else none }

/-- The whole `POST /submit-mvp` handler (lines 60–290), parametrized by
its nondeterministic inputs: whether the transporter was configured at
start, `NODE_ENV`, the generated submission id and formatted date, and the
outcome `Promise.all` of the two sends settles with (`none` = fulfilled,
`some e` = rejected with `e`). Returns the response and the list of mails
whose dispatch was initiated. -/
def runHandler (transporterConfigured : Bool) (mode : String)
    (submissionId submissionDate : String) (sendOutcome : Option JsErr)
    (body : Payload) : HttpResponse × List Mail :=
  if !transporterConfigured then (notConfiguredResponse, [])
  else
    match validateE body with
    | Except.error e => (catchResponse mode e, [])
    | Except.ok errors =>
      if errors.length > 0 then (validationFailedResponse errors, [])
      else
        let mails := [buildAdminMail body submissionId submissionDate,
                      buildParticipantMail body submissionId submissionDate]
        match sendOutcome with
        | some e => (catchResponse mode e, mails)
        | none => (successResponse body submissionId submissionDate, mails)

/-! ## Per-rule views of the validator

Each rule of the validation block, taken on its own, contributes an
independent list of errors. These functions restate each rule as a direct
list builder; the lemmas below prove that the push-based code accumulates
exactly their concatenation. -/

/-- The required-field loop, as the list of display names it contributes. -/
def requiredCheckList (p : Payload) : List (String × String) → Except JsErr (List String)
  | [] => Except.ok []
  | (field, displayName) :: rest =>
    if !jsTruthy (getField p field) then
      (requiredCheckList p rest).map (fun tl => displayName :: tl)
    else
      match getField p field with
      | some (JVal.str s) =>
        if jsTrim s = "" then (requiredCheckList p rest).map (fun tl => displayName :: tl)
        else requiredCheckList p rest
      | _ => Except.error trimTypeError

def requiredCheck (p : Payload) : Except JsErr (List String) :=
  requiredCheckList p requiredFields

/-- The teamEmail format rule, as the list of errors it contributes. -/
def emailCheck (p : Payload) : Except JsErr (List String) :=
  if jsTruthy p.teamEmail then
    match p.teamEmail with
    | some (JVal.str s) =>
      if emailRegexTest (jsTrim s) then Except.ok []
      else Except.ok ["Team Email Address (must be a valid email format)"]
    | _ => Except.error trimTypeError
  else Except.ok []

/-- The unsdgGoals rule, as the list of errors it contributes. -/
def sdgCheck (p : Payload) : List String :=
  if !jsTruthy p.unsdgGoals || !isArrOpt p.unsdgGoals || (arrElemsOpt p.unsdgGoals).length = 0 then
    ["UN Sustainable Development Goals (select at least one)"]
  else []

/-- The teamMembers rule, as the list of errors it contributes. -/
def memberCheck (p : Payload) : Except JsErr (List String) :=
  if !jsTruthy p.teamMembers || !isArrOpt p.teamMembers then
    Except.ok ["Team Members (at least one member required)"]
  else do
    let kept ← membersFilterE (arrElemsOpt p.teamMembers)
    if kept.length = 0 then pure ["Team Members (at least one member required)"]
    else pure []

/-- The youtubeLink format rule, as the list of errors it contributes. -/
def ytCheck (p : Payload) : Except JsErr (List String) :=
  if jsTruthy p.youtubeLink then do
    let hasYt ← jsIncludesE ((p.youtubeLink).getD JVal.null) "youtube.com"
    if hasYt then pure []
    else do
      let hasBe ← jsIncludesE ((p.youtubeLink).getD JVal.null) "youtu.be"
      if hasBe then pure []
      else pure ["YouTube Link (must be a valid YouTube URL)"]
  else Except.ok []

/-- The githubRepo format rule, as the list of errors it contributes. -/
def ghCheck (p : Payload) : Except JsErr (List String) :=
  if jsTruthy p.githubRepo then do
    let hasGh ← jsIncludesE ((p.githubRepo).getD JVal.null) "github.com"
    if hasGh then pure []
    else pure ["GitHub Repository (must be a valid GitHub URL)"]
  else Except.ok []

/-! ## Specification-side definitions

These definitions follow the wording of the specification (not the code);
the theorems below compare the code against them. -/

/-- A character the spec admits inside an email address: not whitespace and
not `'@'`. -/
def specOkChar (c : Char) : Prop := jsWhitespace c = false ∧ c ≠ '@'

/-- The spec's email shape `local@domain.tld`: a non-empty local part
without whitespace or `'@'`, one `'@'`, then a non-empty domain and a
non-empty tld separated by a dot, all without internal whitespace. -/
def specEmailShape (s : String) : Prop :=
  ∃ l d t : List Char,
    s.data = l ++ '@' :: (d ++ '.' :: t) ∧ l ≠ [] ∧ d ≠ [] ∧ t ≠ [] ∧
    (∀ c ∈ l, specOkChar c) ∧ (∀ c ∈ d, specOkChar c) ∧ (∀ c ∈ t, specOkChar c)

/-- Split a character list into its newline-separated lines. -/
def splitLines : List Char → List (List Char)
  | [] => [[]]
  | c :: rest =>
    if c = '\n' then [] :: splitLines rest
    else
      match splitLines rest with
      | [] => [[c]]
      | l :: ls => (c :: l) :: ls

/-- Join lines with the HTML line-break marker. -/
def joinBR : List (List Char) → List Char
  | [] => []
  | [l] => l
  | l :: ls => l ++ "<br>".data ++ joinBR ls

/-- The nine errors the spec predicts for an empty request body, in rule
order. -/
def emptyBodyErrors : List String :=
  ["Team Name", "Team Email Address", "Project Title", "Project Background",
   "Problem Statement", "YouTube Link", "GitHub Repository",
   "UN Sustainable Development Goals (select at least one)",
   "Team Members (at least one member required)"]

end Mvp

namespace Mvp

/-! ## Basic lemmas -/

lemma except_bind_ok {ε α β : Type} (a : α) (f : α → Except ε β) :
    (Except.ok a >>= f) = f a := rfl

lemma except_bind_error {ε α β : Type} (e : ε) (f : α → Except ε β) :
    ((Except.error e : Except ε α) >>= f) = Except.error e := rfl

lemma except_map_ok {ε α β : Type} (f : α → β) (a : α) :
    (Except.ok a : Except ε α).map f = Except.ok (f a) := rfl

lemma except_map_error {ε α β : Type} (f : α → β) (e : ε) :
    (Except.error e : Except ε α).map f = Except.error e := rfl

lemma except_pure {ε α : Type} (a : α) : (pure a : Except ε α) = Except.ok a := rfl

/-- The push-based required-field loop accumulates exactly the per-rule
list, appended to whatever was already pushed. -/
lemma pushRequired_eq (p : Payload) :
    ∀ (l : List (String × String)) (errors : List String),
      pushRequired p l errors = (requiredCheckList p l).map (fun tl => errors ++ tl) := by
  intro l
  induction l with
  | nil => intro errors; simp [pushRequired, requiredCheckList, except_map_ok]
  | cons hd rest ih =>
    obtain ⟨field, displayName⟩ := hd
    intro errors
    by_cases ht : jsTruthy (getField p field)
    · rcases hg : getField p field with _ | v
      · rw [hg] at ht; simp [jsTruthy] at ht
      · rw [hg] at ht
        cases v with
        | str s =>
          by_cases hs : jsTrim s = "" <;>
          cases hr : requiredCheckList p rest <;>
            simp [pushRequired, requiredCheckList, hg, ht, hs, ih, hr,
              except_map_ok, except_map_error]
        | num n =>
          simp [pushRequired, requiredCheckList, hg, ht, except_map_error]
        | bool b =>
          simp [pushRequired, requiredCheckList, hg, ht, except_map_error]
        | null =>
          simp [jsTruthy] at ht
        | arr xs =>
          simp [pushRequired, requiredCheckList, hg, ht, except_map_error]
    · cases hr : requiredCheckList p rest <;>
        simp [pushRequired, requiredCheckList, ht, ih, hr,
          except_map_ok, except_map_error]

lemma pushEmail_eq (p : Payload) (errors : List String) :
    pushEmail p errors = (emailCheck p).map (fun tl => errors ++ tl) := by
  by_cases ht : jsTruthy p.teamEmail
  · rcases hg : p.teamEmail with _ | v
    · rw [hg] at ht; simp [jsTruthy] at ht
    · rw [hg] at ht
      cases v with
      | str s =>
        by_cases hs : emailRegexTest (jsTrim s) <;>
          simp [pushEmail, emailCheck, hg, ht, hs, except_map_ok]
      | num n => simp [pushEmail, emailCheck, hg, ht, except_map_error]
      | bool b => simp [pushEmail, emailCheck, hg, ht, except_map_error]
      | null => simp [jsTruthy] at ht
      | arr xs => simp [pushEmail, emailCheck, hg, ht, except_map_error]
  · simp [pushEmail, emailCheck, ht, except_map_ok]

lemma pushSdg_eq (p : Payload) (errors : List String) :
    pushSdg p errors = errors ++ sdgCheck p := by
  by_cases h : (!jsTruthy p.unsdgGoals || !isArrOpt p.unsdgGoals
      || (arrElemsOpt p.unsdgGoals).length = 0 : Bool)
  · simp [pushSdg, sdgCheck, h]
  · simp [pushSdg, sdgCheck, h]

lemma pushMembers_eq (p : Payload) (errors : List String) :
    pushMembers p errors = (memberCheck p).map (fun tl => errors ++ tl) := by
  by_cases h : (!jsTruthy p.teamMembers || !isArrOpt p.teamMembers : Bool)
  · simp [pushMembers, memberCheck, h, except_map_ok]
  · cases hm : membersFilterE (arrElemsOpt p.teamMembers) with
    | error e =>
      simp [pushMembers, memberCheck, h, hm, except_bind_error, except_map_error]
    | ok kept =>
      by_cases hk : kept = [] <;>
        simp [pushMembers, memberCheck, h, hm, hk, except_bind_ok, except_pure,
          except_map_ok]

lemma pushYt_eq (p : Payload) (errors : List String) :
    pushYt p errors = (ytCheck p).map (fun tl => errors ++ tl) := by
  by_cases ht : jsTruthy p.youtubeLink
  · cases hv : jsIncludesE ((p.youtubeLink).getD JVal.null) "youtube.com" with
    | error e => simp [pushYt, ytCheck, ht, hv, except_bind_error, except_map_error]
    | ok hasYt =>
      cases hasYt with
      | true => simp [pushYt, ytCheck, ht, hv, except_bind_ok, except_pure, except_map_ok]
      | false =>
        cases hv2 : jsIncludesE ((p.youtubeLink).getD JVal.null) "youtu.be" with
        | error e =>
          simp [pushYt, ytCheck, ht, hv, hv2, except_bind_ok, except_bind_error,
            except_map_error]
        | ok hasBe =>
          cases hasBe <;>
            simp [pushYt, ytCheck, ht, hv, hv2, except_bind_ok, except_pure, except_map_ok]
  · simp [pushYt, ytCheck, ht, except_map_ok]

lemma pushGh_eq (p : Payload) (errors : List String) :
    pushGh p errors = (ghCheck p).map (fun tl => errors ++ tl) := by
  by_cases ht : jsTruthy p.githubRepo
  · cases hv : jsIncludesE ((p.githubRepo).getD JVal.null) "github.com" with
    | error e => simp [pushGh, ghCheck, ht, hv, except_bind_error, except_map_error]
    | ok hasGh =>
      cases hasGh <;>
        simp [pushGh, ghCheck, ht, hv, except_bind_ok, except_pure, except_map_ok]
  · simp [pushGh, ghCheck, ht, except_map_ok]

/-- Validation succeeds exactly when every rule does, and then the error
list is the concatenation of the per-rule lists, in rule order. -/
lemma validateE_decomp (p : Payload) (errs : List String)
    (h : validateE p = Except.ok errs) :
    ∃ r e m y g, requiredCheck p = Except.ok r ∧ emailCheck p = Except.ok e ∧
      memberCheck p = Except.ok m ∧ ytCheck p = Except.ok y ∧ ghCheck p = Except.ok g ∧
      errs = r ++ e ++ sdgCheck p ++ m ++ y ++ g := by
  unfold validateE at h
  rw [pushRequired_eq] at h
  cases hr : requiredCheck p with
  | error ex =>
    rw [requiredCheck] at hr; rw [hr] at h
    simp [except_map_error, except_bind_error] at h
  | ok r =>
    rw [requiredCheck] at hr; rw [hr] at h
    simp only [except_map_ok, except_bind_ok, List.nil_append] at h
    rw [pushEmail_eq] at h
    cases he : emailCheck p with
    | error ex => rw [he] at h; simp [except_map_error, except_bind_error] at h
    | ok e =>
      rw [he] at h
      simp only [except_map_ok, except_bind_ok] at h
      rw [pushSdg_eq, pushMembers_eq] at h
      cases hm : memberCheck p with
      | error ex => rw [hm] at h; simp [except_map_error, except_bind_error] at h
      | ok m =>
        rw [hm] at h
        simp only [except_map_ok, except_bind_ok] at h
        rw [pushYt_eq] at h
        cases hy : ytCheck p with
        | error ex => rw [hy] at h; simp [except_map_error, except_bind_error] at h
        | ok y =>
          rw [hy] at h
          simp only [except_map_ok, except_bind_ok] at h
          rw [pushGh_eq] at h
          cases hg : ghCheck p with
          | error ex => rw [hg] at h; simp [except_map_error] at h
          | ok g =>
            rw [hg] at h
            simp only [except_map_ok, Except.ok.injEq] at h
            exact ⟨r, e, m, y, g, rfl, rfl, rfl, rfl, rfl,
              by subst h; simp [List.append_assoc]⟩

end Mvp

namespace Mvp

/-! ## What each rule can contribute -/

lemma requiredCheckList_subset (p : Payload) :
    ∀ (l : List (String × String)) (r : List String),
      requiredCheckList p l = Except.ok r → ∀ x ∈ r, x ∈ l.map Prod.snd := by
  intro l
  induction l with
  | nil =>
    intro r h x hx
    simp [requiredCheckList] at h
    subst h; simp at hx
  | cons hd rest ih =>
    obtain ⟨field, displayName⟩ := hd
    intro r h x hx
    rw [requiredCheckList] at h
    by_cases ht : jsTruthy (getField p field)
    · rcases hg : getField p field with _ | v
      · rw [hg] at ht; simp [jsTruthy] at ht
      · rw [hg] at ht; rw [hg] at h
        cases v with
        | str s =>
          by_cases hs : jsTrim s = ""
          · simp only [ht, hs, Bool.not_true, Bool.false_eq_true, ite_false, if_true] at h
            cases hrest : requiredCheckList p rest with
            | error ex => rw [hrest] at h; simp [except_map_error] at h
            | ok tl =>
              rw [hrest] at h
              simp only [except_map_ok, Except.ok.injEq] at h
              subst h
              rcases List.mem_cons.mp hx with hx | hx
              · subst hx; simp
              · simp only [List.map_cons, List.mem_cons]
                exact Or.inr (ih tl hrest x hx)
          · simp only [ht, hs, Bool.not_true, Bool.false_eq_true, ite_false] at h
            simp only [List.map_cons, List.mem_cons]
            exact Or.inr (ih r h x hx)
        | num n => simp [ht] at h
        | bool b => simp [ht] at h
        | null => simp [jsTruthy] at ht
        | arr xs => simp [ht] at h
    · simp only [ht, Bool.not_eq_true', Bool.not_true, if_true] at h
      cases hrest : requiredCheckList p rest with
      | error ex => rw [hrest] at h; simp [except_map_error] at h
      | ok tl =>
        rw [hrest] at h
        simp only [except_map_ok, Except.ok.injEq] at h
        subst h
        rcases List.mem_cons.mp hx with hx | hx
        · subst hx; simp
        · simp only [List.map_cons, List.mem_cons]
          exact Or.inr (ih tl hrest x hx)

lemma requiredCheck_subset (p : Payload) (r : List String)
    (h : requiredCheck p = Except.ok r) :
    ∀ x ∈ r, x ∈ requiredFields.map Prod.snd :=
  requiredCheckList_subset p requiredFields r h

lemma emailCheck_subset (p : Payload) (e : List String)
    (h : emailCheck p = Except.ok e) :
    ∀ x ∈ e, x = "Team Email Address (must be a valid email format)" := by
  rw [emailCheck] at h
  by_cases ht : jsTruthy p.teamEmail
  · rcases hg : p.teamEmail with _ | v
    · rw [hg] at ht; simp [jsTruthy] at ht
    · rw [hg] at ht; rw [hg] at h
      cases v with
      | str s =>
        by_cases hr : emailRegexTest (jsTrim s) <;>
          · simp only [ht, hr, if_true, Bool.false_eq_true, ite_false,
              Except.ok.injEq] at h
            subst h
            intro x hx
            simp at hx
            try exact hx
            try simp [hx]
      | num n => simp [ht] at h
      | bool b => simp [ht] at h
      | null => simp [jsTruthy] at ht
      | arr xs => simp [ht] at h
  · simp only [ht, if_false, Bool.false_eq_true, ite_false, Except.ok.injEq] at h
    subst h
    intro x hx
    simp at hx

lemma sdgCheck_subset (p : Payload) :
    ∀ x ∈ sdgCheck p, x = "UN Sustainable Development Goals (select at least one)" := by
  rw [sdgCheck]
  split
  · intro x hx; simpa using hx
  · intro x hx; simp at hx

lemma memberCheck_subset (p : Payload) (m : List String)
    (h : memberCheck p = Except.ok m) :
    ∀ x ∈ m, x = "Team Members (at least one member required)" := by
  rw [memberCheck] at h
  split at h
  · simp only [Except.ok.injEq] at h
    subst h; intro x hx; simpa using hx
  · cases hm : membersFilterE (arrElemsOpt p.teamMembers) with
    | error ex => rw [hm] at h; simp [except_bind_error] at h
    | ok kept =>
      rw [hm] at h
      simp only [except_bind_ok] at h
      split at h <;>
        · simp only [except_pure, Except.ok.injEq] at h
          subst h; intro x hx; simp at hx
          try exact hx
          try simp [hx]

lemma ytCheck_subset (p : Payload) (y : List String)
    (h : ytCheck p = Except.ok y) :
    ∀ x ∈ y, x = "YouTube Link (must be a valid YouTube URL)" := by
  rw [ytCheck] at h
  split at h
  · cases hv : jsIncludesE ((p.youtubeLink).getD JVal.null) "youtube.com" with
    | error ex => rw [hv] at h; simp [except_bind_error] at h
    | ok hasYt =>
      rw [hv] at h
      simp only [except_bind_ok] at h
      cases hasYt with
      | true =>
        simp only [if_true, except_pure, Except.ok.injEq] at h
        subst h; intro x hx; simp at hx
      | false =>
        simp only [Bool.false_eq_true, ite_false] at h
        cases hv2 : jsIncludesE ((p.youtubeLink).getD JVal.null) "youtu.be" with
        | error ex => rw [hv2] at h; simp [except_bind_error] at h
        | ok hasBe =>
          rw [hv2] at h
          simp only [except_bind_ok] at h
          cases hasBe <;>
            · simp only [if_true, Bool.false_eq_true, ite_false, except_pure,
                Except.ok.injEq] at h
              subst h; intro x hx; simp at hx
              try exact hx
              try simp [hx]
  · simp only [Except.ok.injEq] at h
    subst h; intro x hx; simp at hx

lemma ghCheck_subset (p : Payload) (g : List String)
    (h : ghCheck p = Except.ok g) :
    ∀ x ∈ g, x = "GitHub Repository (must be a valid GitHub URL)" := by
  rw [ghCheck] at h
  split at h
  · cases hv : jsIncludesE ((p.githubRepo).getD JVal.null) "github.com" with
    | error ex => rw [hv] at h; simp [except_bind_error] at h
    | ok hasGh =>
      rw [hv] at h
      simp only [except_bind_ok] at h
      cases hasGh <;>
        · simp only [if_true, Bool.false_eq_true, ite_false, except_pure,
            Except.ok.injEq] at h
          subst h; intro x hx; simp at hx
          try exact hx
          try simp [hx]
  · simp only [Except.ok.injEq] at h
    subst h; intro x hx; simp at hx

end Mvp

namespace Mvp

/-! ## When each rule fires -/

lemma emailCheck_mem (p : Payload) (e : List String)
    (h : emailCheck p = Except.ok e) :
    ("Team Email Address (must be a valid email format)" ∈ e ↔
      ∃ s, p.teamEmail = some (JVal.str s) ∧ s ≠ "" ∧ emailRegexTest (jsTrim s) = false) := by
  rw [emailCheck] at h
  by_cases ht : jsTruthy p.teamEmail
  · rcases hg : p.teamEmail with _ | v
    · rw [hg] at ht; simp [jsTruthy] at ht
    · rw [hg] at ht; rw [hg] at h
      cases v with
      | str s =>
        have hs : s ≠ "" := by simpa [jsTruthy] using ht
        by_cases hr : emailRegexTest (jsTrim s)
        · simp only [ht, hr, if_true, Except.ok.injEq] at h
          subst h
          simp only [List.not_mem_nil, false_iff]
          rintro ⟨s', hs', _, hr'⟩
          simp only [Option.some.injEq, JVal.str.injEq] at hs'
          subst hs'
          rw [hr] at hr'
          cases hr'
        · simp only [ht, hr, if_true, Bool.false_eq_true, ite_false,
            Except.ok.injEq] at h
          subst h
          simp only [List.mem_singleton, true_iff]
          exact ⟨s, rfl, hs, by simpa using hr⟩
      | num n => simp [ht] at h
      | bool b => simp [ht] at h
      | null => simp [jsTruthy] at ht
      | arr xs => simp [ht] at h
  · have ht' : jsTruthy p.teamEmail = false := by simpa using ht
    simp only [ht', Bool.false_eq_true, ite_false, if_false, Except.ok.injEq] at h
    subst h
    simp only [List.not_mem_nil, false_iff]
    rintro ⟨s, hs, hne, _⟩
    rw [hs] at ht'
    simp [jsTruthy, hne] at ht'

lemma membersFilterE_strings (xs : List JVal) (kept : List String)
    (h : membersFilterE xs = Except.ok kept) :
    (kept = [] ↔ ¬ ∃ v ∈ xs, ∃ s, v = JVal.str s ∧ jsTrim s ≠ "") := by
  induction xs generalizing kept with
  | nil =>
    simp only [membersFilterE, Except.ok.injEq] at h
    subst h; simp
  | cons v rest ih =>
    cases v with
    | str s =>
      rw [membersFilterE] at h
      cases hrest : membersFilterE rest with
      | error ex => rw [hrest] at h; simp [except_bind_error] at h
      | ok tl =>
        rw [hrest] at h
        simp only [except_bind_ok, except_pure, Except.ok.injEq] at h
        by_cases hs : jsTrim s = ""
        · rw [if_pos hs] at h
          subst h
          rw [ih tl hrest]
          simp [hs]
        · rw [if_neg hs] at h
          subst h
          constructor
          · intro hc; exact absurd hc (List.cons_ne_nil s tl)
          · intro hno
            exact ((hno ⟨JVal.str s, List.mem_cons_self _ _, s, rfl, hs⟩)).elim
    | num n => simp [membersFilterE] at h
    | bool b => simp [membersFilterE] at h
    | null => simp [membersFilterE] at h
    | arr ys => simp [membersFilterE] at h

/-- The member rule fires exactly when teamMembers is not an array with a
non-blank (string) entry. -/
lemma memberCheck_mem (p : Payload) (m : List String)
    (h : memberCheck p = Except.ok m) :
    ("Team Members (at least one member required)" ∈ m ↔
      ¬ ∃ xs, p.teamMembers = some (JVal.arr xs) ∧
        ∃ v ∈ xs, ∃ s, v = JVal.str s ∧ jsTrim s ≠ "") := by
  rw [memberCheck] at h
  by_cases harr : isArrOpt p.teamMembers
  · rcases hg : p.teamMembers with _ | v
    · rw [hg] at harr; simp [isArrOpt] at harr
    · cases v with
      | arr xs =>
        rw [hg] at h
        simp only [jsTruthy, isArrOpt, arrElemsOpt, Bool.not_true, Bool.or_false,
          Bool.false_eq_true, ite_false, Bool.not_false] at h
        cases hm : membersFilterE xs with
        | error ex => rw [hm] at h; simp [except_bind_error] at h
        | ok kept =>
          rw [hm] at h
          simp only [except_bind_ok] at h
          by_cases hk : kept = []
          · rw [if_pos (by simp [hk])] at h
            simp only [except_pure, Except.ok.injEq] at h
            subst h
            simp only [List.mem_singleton, true_iff]
            rintro ⟨xs', hxs', hex⟩
            simp only [Option.some.injEq, JVal.arr.injEq] at hxs'
            subst hxs'
            exact ((membersFilterE_strings xs kept hm).mp hk) hex
          · rw [if_neg (by simp [hk])] at h
            simp only [except_pure, Except.ok.injEq] at h
            subst h
            simp only [List.not_mem_nil, false_iff, not_not]
            refine ⟨xs, rfl, ?_⟩
            by_contra hno
            exact hk ((membersFilterE_strings xs kept hm).mpr hno)
      | str s => rw [hg] at harr; simp [isArrOpt] at harr
      | num n => rw [hg] at harr; simp [isArrOpt] at harr
      | bool b => rw [hg] at harr; simp [isArrOpt] at harr
      | null => rw [hg] at harr; simp [isArrOpt] at harr
  · have harr' : isArrOpt p.teamMembers = false := by simpa using harr
    rw [harr'] at h
    simp only [Bool.not_false, Bool.or_true, if_true, Except.ok.injEq] at h
    subst h
    simp only [List.mem_singleton, true_iff]
    rintro ⟨xs, hxs, _⟩
    rw [hxs] at harr'
    simp [isArrOpt] at harr'

end Mvp

namespace Mvp

lemma ytCheck_mem (p : Payload) (y : List String)
    (h : ytCheck p = Except.ok y) :
    ("YouTube Link (must be a valid YouTube URL)" ∈ y ↔
      ∃ s, p.youtubeLink = some (JVal.str s) ∧ s ≠ "" ∧
        jsIncludes s "youtube.com" = false ∧ jsIncludes s "youtu.be" = false) := by
  rw [ytCheck] at h
  by_cases ht : jsTruthy p.youtubeLink
  · rcases hg : p.youtubeLink with _ | v
    · rw [hg] at ht; simp [jsTruthy] at ht
    · rw [hg] at ht; rw [hg] at h
      cases v with
      | str s =>
        have hs : s ≠ "" := by simpa [jsTruthy] using ht
        simp only [ht, if_true, Option.getD_some, jsIncludesE, except_bind_ok] at h
        by_cases h1 : jsIncludes s "youtube.com"
        · simp only [h1, if_true, except_pure, Except.ok.injEq] at h
          subst h
          simp only [List.not_mem_nil, false_iff]
          rintro ⟨s', hs', _, hc1, _⟩
          simp only [Option.some.injEq, JVal.str.injEq] at hs'
          subst hs'
          rw [h1] at hc1
          cases hc1
        · simp only [h1, Bool.false_eq_true, ite_false, except_pure, except_bind_ok,
            Except.ok.injEq] at h
          by_cases h2 : jsIncludes s "youtu.be"
          · simp only [h2, if_true, Except.ok.injEq] at h
            subst h
            simp only [List.not_mem_nil, false_iff]
            rintro ⟨s', hs', _, _, hc2⟩
            simp only [Option.some.injEq, JVal.str.injEq] at hs'
            subst hs'
            rw [h2] at hc2
            cases hc2
          · simp only [h2, Bool.false_eq_true, ite_false, Except.ok.injEq] at h
            subst h
            simp only [List.mem_singleton, true_iff]
            exact ⟨s, rfl, hs, by simpa using h1, by simpa using h2⟩
      | num n => simp [ht, jsIncludesE, except_bind_error] at h
      | bool b => simp [ht, jsIncludesE, except_bind_error] at h
      | null => simp [jsTruthy] at ht
      | arr xs => simp [ht, jsIncludesE, except_bind_error] at h
  · have ht' : jsTruthy p.youtubeLink = false := by simpa using ht
    rw [ht'] at h
    simp only [Bool.false_eq_true, ite_false, if_false, Except.ok.injEq] at h
    subst h
    simp only [List.not_mem_nil, false_iff]
    rintro ⟨s, hs, hne, _⟩
    rw [hs] at ht'
    simp [jsTruthy, hne] at ht'

lemma ghCheck_mem (p : Payload) (g : List String)
    (h : ghCheck p = Except.ok g) :
    ("GitHub Repository (must be a valid GitHub URL)" ∈ g ↔
      ∃ s, p.githubRepo = some (JVal.str s) ∧ s ≠ "" ∧
        jsIncludes s "github.com" = false) := by
  rw [ghCheck] at h
  by_cases ht : jsTruthy p.githubRepo
  · rcases hg : p.githubRepo with _ | v
    · rw [hg] at ht; simp [jsTruthy] at ht
    · rw [hg] at ht; rw [hg] at h
      cases v with
      | str s =>
        have hs : s ≠ "" := by simpa [jsTruthy] using ht
        simp only [ht, if_true, Option.getD_some, jsIncludesE, except_bind_ok] at h
        by_cases h1 : jsIncludes s "github.com"
        · simp only [h1, if_true, except_pure, Except.ok.injEq] at h
          subst h
          simp only [List.not_mem_nil, false_iff]
          rintro ⟨s', hs', _, hc1⟩
          simp only [Option.some.injEq, JVal.str.injEq] at hs'
          subst hs'
          rw [h1] at hc1
          cases hc1
        · simp only [h1, Bool.false_eq_true, ite_false, except_pure, Except.ok.injEq] at h
          subst h
          simp only [List.mem_singleton, true_iff]
          exact ⟨s, rfl, hs, by simpa using h1⟩
      | num n => simp [ht, jsIncludesE, except_bind_error] at h
      | bool b => simp [ht, jsIncludesE, except_bind_error] at h
      | null => simp [jsTruthy] at ht
      | arr xs => simp [ht, jsIncludesE, except_bind_error] at h
  · have ht' : jsTruthy p.githubRepo = false := by simpa using ht
    rw [ht'] at h
    simp only [Bool.false_eq_true, ite_false, if_false, Except.ok.injEq] at h
    subst h
    simp only [List.not_mem_nil, false_iff]
    rintro ⟨s, hs, hne, _⟩
    rw [hs] at ht'
    simp [jsTruthy, hne] at ht'

end Mvp

namespace Mvp

/-! ## Membership in the full error list, rule by rule -/

lemma validate_mem_email (p : Payload) (errs : List String)
    (h : validateE p = Except.ok errs) :
    ("Team Email Address (must be a valid email format)" ∈ errs ↔
      ∃ s, p.teamEmail = some (JVal.str s) ∧ s ≠ "" ∧ emailRegexTest (jsTrim s) = false) := by
  obtain ⟨r, e, m, y, g, hr, he, hm, hy, hg2, heq⟩ := validateE_decomp p errs h
  have hstep : ("Team Email Address (must be a valid email format)" ∈ errs ↔
      "Team Email Address (must be a valid email format)" ∈ e) := by
    subst heq
    simp only [List.mem_append]
    constructor
    · rintro (((((hx | hx) | hx) | hx) | hx) | hx)
      · exact absurd (requiredCheck_subset p r hr _ hx) (by decide)
      · exact hx
      · exact absurd (sdgCheck_subset p _ hx) (by decide)
      · exact absurd (memberCheck_subset p m hm _ hx) (by decide)
      · exact absurd (ytCheck_subset p y hy _ hx) (by decide)
      · exact absurd (ghCheck_subset p g hg2 _ hx) (by decide)
    · intro hx; tauto
  rw [hstep, emailCheck_mem p e he]

lemma validate_mem_member (p : Payload) (errs : List String)
    (h : validateE p = Except.ok errs) :
    ("Team Members (at least one member required)" ∈ errs ↔
      ¬ ∃ xs, p.teamMembers = some (JVal.arr xs) ∧
        ∃ v ∈ xs, ∃ s, v = JVal.str s ∧ jsTrim s ≠ "") := by
  obtain ⟨r, e, m, y, g, hr, he, hm, hy, hg2, heq⟩ := validateE_decomp p errs h
  have hstep : ("Team Members (at least one member required)" ∈ errs ↔
      "Team Members (at least one member required)" ∈ m) := by
    subst heq
    simp only [List.mem_append]
    constructor
    · rintro (((((hx | hx) | hx) | hx) | hx) | hx)
      · exact absurd (requiredCheck_subset p r hr _ hx) (by decide)
      · exact absurd (emailCheck_subset p e he _ hx) (by decide)
      · exact absurd (sdgCheck_subset p _ hx) (by decide)
      · exact hx
      · exact absurd (ytCheck_subset p y hy _ hx) (by decide)
      · exact absurd (ghCheck_subset p g hg2 _ hx) (by decide)
    · intro hx; tauto
  rw [hstep, memberCheck_mem p m hm]

lemma validate_mem_yt (p : Payload) (errs : List String)
    (h : validateE p = Except.ok errs) :
    ("YouTube Link (must be a valid YouTube URL)" ∈ errs ↔
      ∃ s, p.youtubeLink = some (JVal.str s) ∧ s ≠ "" ∧
        jsIncludes s "youtube.com" = false ∧ jsIncludes s "youtu.be" = false) := by
  obtain ⟨r, e, m, y, g, hr, he, hm, hy, hg2, heq⟩ := validateE_decomp p errs h
  have hstep : ("YouTube Link (must be a valid YouTube URL)" ∈ errs ↔
      "YouTube Link (must be a valid YouTube URL)" ∈ y) := by
    subst heq
    simp only [List.mem_append]
    constructor
    · rintro (((((hx | hx) | hx) | hx) | hx) | hx)
      · exact absurd (requiredCheck_subset p r hr _ hx) (by decide)
      · exact absurd (emailCheck_subset p e he _ hx) (by decide)
      · exact absurd (sdgCheck_subset p _ hx) (by decide)
      · exact absurd (memberCheck_subset p m hm _ hx) (by decide)
      · exact hx
      · exact absurd (ghCheck_subset p g hg2 _ hx) (by decide)
    · intro hx; tauto
  rw [hstep, ytCheck_mem p y hy]

lemma validate_mem_gh (p : Payload) (errs : List String)
    (h : validateE p = Except.ok errs) :
    ("GitHub Repository (must be a valid GitHub URL)" ∈ errs ↔
      ∃ s, p.githubRepo = some (JVal.str s) ∧ s ≠ "" ∧
        jsIncludes s "github.com" = false) := by
  obtain ⟨r, e, m, y, g, hr, he, hm, hy, hg2, heq⟩ := validateE_decomp p errs h
  have hstep : ("GitHub Repository (must be a valid GitHub URL)" ∈ errs ↔
      "GitHub Repository (must be a valid GitHub URL)" ∈ g) := by
    subst heq
    simp only [List.mem_append]
    constructor
    · rintro (((((hx | hx) | hx) | hx) | hx) | hx)
      · exact absurd (requiredCheck_subset p r hr _ hx) (by decide)
      · exact absurd (emailCheck_subset p e he _ hx) (by decide)
      · exact absurd (sdgCheck_subset p _ hx) (by decide)
      · exact absurd (memberCheck_subset p m hm _ hx) (by decide)
      · exact absurd (ytCheck_subset p y hy _ hx) (by decide)
      · exact hx
    · intro hx; tauto
  rw [hstep, ghCheck_mem p g hg2]

end Mvp

namespace Mvp

/-! ## The email matcher meets its declarative specification -/

lemma breakAt_eq_some (a : Char) :
    ∀ (cs l r : List Char), breakAt a cs = some (l, r) → cs = l ++ a :: r ∧ a ∉ l := by
  intro cs
  induction cs with
  | nil => intro l r h; simp [breakAt] at h
  | cons c rest ih =>
    intro l r h
    rw [breakAt] at h
    by_cases hc : c = a
    · rw [if_pos hc] at h
      simp only [Option.some.injEq, Prod.mk.injEq] at h
      obtain ⟨h1, h2⟩ := h
      subst h1; subst h2; subst hc
      exact ⟨rfl, by simp⟩
    · rw [if_neg hc] at h
      cases hb : breakAt a rest with
      | none => rw [hb] at h; simp at h
      | some p =>
        obtain ⟨l', r'⟩ := p
        rw [hb] at h
        simp only [Option.some.injEq, Prod.mk.injEq] at h
        obtain ⟨h1, h2⟩ := h
        subst h1; subst h2
        obtain ⟨hcs, hnot⟩ := ih l' r' hb
        constructor
        · rw [hcs]; rfl
        · intro hmem
          rcases List.mem_cons.mp hmem with hmem | hmem
          · exact hc hmem.symm
          · exact hnot hmem

lemma breakAt_append (a : Char) :
    ∀ (l r : List Char), a ∉ l → breakAt a (l ++ a :: r) = some (l, r) := by
  intro l
  induction l with
  | nil => intro r _; simp [breakAt]
  | cons c rest ih =>
    intro r hnot
    have hc : c ≠ a := fun hcc => hnot (by simp [hcc])
    have hrest : a ∉ rest := fun hm => hnot (List.mem_cons_of_mem _ hm)
    have h2 := ih r hrest
    simp only [List.cons_append, breakAt, if_neg hc]
    simp [List.append_eq, h2]

lemma hasMidDot_iff :
    ∀ cs : List Char, hasMidDot cs = true ↔ ∃ a b, cs = a ++ '.' :: b ∧ b ≠ [] := by
  intro cs
  induction cs with
  | nil =>
    simp only [hasMidDot, false_iff, Bool.false_eq_true]
    rintro ⟨a, b, heq, hb⟩
    exact absurd heq (by simp)
  | cons c rest ih =>
    cases rest with
    | nil =>
      simp only [hasMidDot, Bool.false_eq_true, false_iff]
      rintro ⟨a, b, heq, hb⟩
      have hlen := congrArg List.length heq
      simp only [List.length_cons, List.length_append, List.length_nil] at hlen
      have hb0 : b.length = 0 := by omega
      exact hb (List.length_eq_zero.mp hb0)
    | cons c2 rest2 =>
      rw [hasMidDot]
      constructor
      · intro h
        rcases Bool.or_eq_true_iff.mp h with h | h
        · refine ⟨[], c2 :: rest2, ?_, by simp⟩
          have : c = '.' := by simpa using h
          rw [this]; rfl
        · obtain ⟨a, b, heq, hb⟩ := ih.mp h
          exact ⟨c :: a, b, by rw [List.cons_append, heq], hb⟩
      · rintro ⟨a, b, heq, hb⟩
        cases a with
        | nil =>
          simp only [List.nil_append, List.cons.injEq] at heq
          apply Bool.or_eq_true_iff.mpr
          exact Or.inl (by simp [heq.1])
        | cons a0 arest =>
          simp only [List.cons_append, List.cons.injEq] at heq
          apply Bool.or_eq_true_iff.mpr
          exact Or.inr (ih.mpr ⟨arest, b, heq.2, hb⟩)

lemma hasInternalDot_iff (cs : List Char) :
    hasInternalDot cs = true ↔ ∃ d1 d2, cs = d1 ++ '.' :: d2 ∧ d1 ≠ [] ∧ d2 ≠ [] := by
  cases cs with
  | nil =>
    simp only [hasInternalDot, Bool.false_eq_true, false_iff]
    rintro ⟨d1, d2, heq, hd1, hd2⟩
    exact absurd heq (by simp)
  | cons c rest =>
    rw [hasInternalDot, hasMidDot_iff]
    constructor
    · rintro ⟨a, b, heq, hb⟩
      exact ⟨c :: a, b, by rw [List.cons_append, heq], by simp, hb⟩
    · rintro ⟨d1, d2, heq, hd1, hd2⟩
      cases d1 with
      | nil => exact absurd rfl hd1
      | cons e0 erest =>
        simp only [List.cons_append, List.cons.injEq] at heq
        exact ⟨erest, d2, heq.2, hd2⟩

lemma okChar_iff (c : Char) : okChar c = true ↔ specOkChar c := by
  simp [okChar, specOkChar, Bool.and_eq_true, Bool.not_eq_true', bne_iff_ne]

/-- The code's email test accepts exactly the strings of the specified
shape `local@domain.tld`. -/
lemma emailRegexTest_iff_spec (s : String) :
    emailRegexTest s = true ↔ specEmailShape s := by
  rw [emailRegexTest]
  constructor
  · intro h
    cases hb : breakAt '@' s.data with
    | none => rw [hb] at h; simp at h
    | some p =>
      obtain ⟨l, d⟩ := p
      rw [hb] at h
      simp only [Bool.and_eq_true, Bool.not_eq_true', List.isEmpty_eq_false,
        List.isEmpty_iff, List.all_eq_true] at h
      obtain ⟨⟨⟨⟨hl, halll⟩, hd⟩, halld⟩, hdot⟩ := h
      obtain ⟨d1, d2, hdeq, hd1, hd2⟩ := (hasInternalDot_iff d).mp hdot
      obtain ⟨hcs, _⟩ := breakAt_eq_some '@' s.data l d hb
      refine ⟨l, d1, d2, ?_, hl, hd1, hd2, ?_, ?_, ?_⟩
      · rw [hcs, hdeq]
      · intro c hc; exact (okChar_iff c).mp (halll c hc)
      · intro c hc
        exact (okChar_iff c).mp (halld c (by rw [hdeq]; exact List.mem_append_left _ hc))
      · intro c hc
        refine (okChar_iff c).mp (halld c ?_)
        rw [hdeq]
        exact List.mem_append_right _ (List.mem_cons_of_mem _ hc)
  · rintro ⟨l, d1, d2, heq, hl, hd1, hd2, pl, pd, pt⟩
    have hnotl : '@' ∉ l := fun hm => (pl '@' hm).2 rfl
    rw [heq, breakAt_append '@' l _ hnotl]
    simp only [Bool.and_eq_true, Bool.not_eq_true', List.isEmpty_eq_false,
      List.isEmpty_iff, List.all_eq_true]
    refine ⟨⟨⟨⟨hl, ?_⟩, by simp⟩, ?_⟩, ?_⟩
    · intro c hc; exact (okChar_iff c).mpr (pl c hc)
    · intro c hc
      rcases List.mem_append.mp hc with hc | hc
      · exact (okChar_iff c).mpr (pd c hc)
      · rcases List.mem_cons.mp hc with hc | hc
        · subst hc; decide
        · exact (okChar_iff c).mpr (pt c hc)
    · exact (hasInternalDot_iff _).mpr ⟨d1, d2, rfl, hd1, hd2⟩

end Mvp

namespace Mvp

/-! ## Numbered-list rendering -/

/-- Mapping an index-using renderer over an enumerated list is the same as
zipping the rendered entries with the contiguous range starting just above
the enumeration base. -/
lemma enumFrom_map_zipWith {α β γ : Type} (f : α → β) (g : Nat → β → γ) :
    ∀ (l : List α) (i : Nat),
      (List.enumFrom i l).map (fun q => g (q.1 + 1) (f q.2)) =
        List.zipWith g (List.range' (i + 1) l.length) (l.map f) := by
  intro l
  induction l with
  | nil => intro i; simp
  | cons a rest ih =>
    intro i
    rw [List.enumFrom_cons, List.map_cons, List.length_cons, List.range'_succ,
      List.map_cons, List.zipWith_cons_cons, ih]

/-! ## Newline replacement -/

lemma splitLines_ne_nil : ∀ cs : List Char, splitLines cs ≠ [] := by
  intro cs
  cases cs with
  | nil => simp [splitLines]
  | cons c rest =>
    rw [splitLines]
    by_cases hc : c = '\n'
    · simp [hc]
    · rw [if_neg hc]
      cases h : splitLines rest <;> simp

/-- Replacing every newline with `<br>` is the same as splitting into lines
and joining them with `<br>`. -/
lemma jsReplaceLF_eq_joinBR : ∀ cs : List Char, jsReplaceLF cs = joinBR (splitLines cs) := by
  intro cs
  induction cs with
  | nil => rfl
  | cons c rest ih =>
    rw [jsReplaceLF, splitLines]
    by_cases hc : c = '\n'
    · rw [if_pos hc, if_pos hc]
      cases h : splitLines rest with
      | nil => exact absurd h (splitLines_ne_nil rest)
      | cons l ls =>
        rw [h] at ih
        simp [joinBR, ih]
    · rw [if_neg hc, if_neg hc]
      cases h : splitLines rest with
      | nil => exact absurd h (splitLines_ne_nil rest)
      | cons l ls =>
        rw [h] at ih
        cases ls with
        | nil => simp [joinBR, ih]
        | cons l2 ls2 => simp [joinBR, ih, List.append_assoc]

/-! ## Exception propagation (non-string inputs) -/

/-- If some required field holds a truthy non-string, the loop raises. -/
lemma pushRequired_error (p : Payload) :
    ∀ (l : List (String × String)) (errors : List String),
      (∃ fd ∈ l, jsTruthy (getField p fd.1) = true ∧
        ∀ s, getField p fd.1 ≠ some (JVal.str s)) →
      pushRequired p l errors = Except.error trimTypeError := by
  intro l
  induction l with
  | nil => rintro errors ⟨fd, hmem, _⟩; simp at hmem
  | cons hd rest ih =>
    obtain ⟨field, displayName⟩ := hd
    rintro errors ⟨fd, hmem, hbad⟩
    rcases List.mem_cons.mp hmem with hfd | hfd
    · subst hfd
      obtain ⟨ht, hnostr⟩ := hbad
      rw [pushRequired, if_neg (by simp [ht])]
      rcases hg : getField p field with _ | v
      · rw [hg] at ht
        try simp [jsTruthy] at ht
      · cases v with
        | str s => exact absurd hg (hnostr s)
        | num n => rfl
        | bool b => rfl
        | null => rfl
        | arr xs => rfl
    · rw [pushRequired]
      by_cases ht : jsTruthy (getField p field)
      · rw [if_neg (by simp [ht])]
        rcases hg : getField p field with _ | v
        · rw [hg] at ht
          try simp [jsTruthy] at ht
        · cases v with
          | str s =>
            show (if jsTrim s = "" then pushRequired p rest (errors ++ [displayName])
                else pushRequired p rest errors) = Except.error trimTypeError
            by_cases hs : jsTrim s = ""
            · rw [if_pos hs]; exact ih _ ⟨fd, hfd, hbad⟩
            · rw [if_neg hs]; exact ih _ ⟨fd, hfd, hbad⟩
          | num n => rfl
          | bool b => rfl
          | null => rfl
          | arr xs => rfl
      · rw [if_pos (by simpa using ht)]
        exact ih _ ⟨fd, hfd, hbad⟩

/-- If every truthy required field is a string, the loop completes. -/
lemma pushRequired_ok (p : Payload) :
    ∀ (l : List (String × String)) (errors : List String),
      (∀ fd ∈ l, jsTruthy (getField p fd.1) = true →
        ∃ s, getField p fd.1 = some (JVal.str s)) →
      ∃ acc, pushRequired p l errors = Except.ok acc := by
  intro l
  induction l with
  | nil => intro errors _; exact ⟨errors, rfl⟩
  | cons hd rest ih =>
    obtain ⟨field, displayName⟩ := hd
    intro errors hgood
    rw [pushRequired]
    by_cases ht : jsTruthy (getField p field)
    · obtain ⟨s, hs⟩ := hgood (field, displayName) (List.mem_cons_self _ _) ht
      rw [if_neg (by simp [ht]), hs]
      show ∃ acc, (if jsTrim s = "" then pushRequired p rest (errors ++ [displayName])
          else pushRequired p rest errors) = Except.ok acc
      by_cases he : jsTrim s = ""
      · rw [if_pos he]
        exact ih _ (fun fd hfd => hgood fd (List.mem_cons_of_mem _ hfd))
      · rw [if_neg he]
        exact ih _ (fun fd hfd => hgood fd (List.mem_cons_of_mem _ hfd))
    · rw [if_pos (by simpa using ht)]
      exact ih _ (fun fd hfd => hgood fd (List.mem_cons_of_mem _ hfd))

/-- A non-string entry makes the member filter raise. -/
lemma membersFilterE_error :
    ∀ xs : List JVal, (∃ v ∈ xs, ∀ s, v ≠ JVal.str s) →
      membersFilterE xs = Except.error trimTypeError := by
  intro xs
  induction xs with
  | nil => rintro ⟨v, hmem, _⟩; simp at hmem
  | cons v rest ih =>
    rintro ⟨w, hmem, hbad⟩
    rcases List.mem_cons.mp hmem with hw | hw
    · subst hw
      cases w with
      | str s => exact absurd rfl (hbad s)
      | num n => rfl
      | bool b => rfl
      | null => rfl
      | arr ys => rfl
    · cases v with
      | str s =>
        rw [membersFilterE, ih ⟨w, hw, hbad⟩]
        rfl
      | num n => rfl
      | bool b => rfl
      | null => rfl
      | arr ys => rfl

end Mvp

namespace Mvp

/-! ## Claim theorems -/

/-- C1: validation evaluates all rules and accumulates every failure in the
fixed rule order (required fields, email format, SDG, members, YouTube,
GitHub), and for an empty request body the handler returns the 400
validation response whose errors array is exactly the seven required-field
display names followed by the SDG and team-member errors, with no mail
dispatched. -/
theorem validation_accumulates_and_empty_body_nine_errors :
    (∀ (mode submissionId submissionDate : String) (sendOutcome : Option JsErr),
      runHandler true mode submissionId submissionDate sendOutcome {} =
        (validationFailedResponse emptyBodyErrors, [])) ∧
    (∀ (p : Payload) (errs : List String), validateE p = Except.ok errs →
      ∃ r e m y g, requiredCheck p = Except.ok r ∧ emailCheck p = Except.ok e ∧
        memberCheck p = Except.ok m ∧ ytCheck p = Except.ok y ∧ ghCheck p = Except.ok g ∧
        errs = r ++ e ++ sdgCheck p ++ m ++ y ++ g) := by
  constructor
  · intro mode submissionId submissionDate sendOutcome
    rfl
  · exact validateE_decomp

/-- C1 witness: the decomposition applies to the empty body, whose error
list is the nine-entry list in rule order. -/
theorem validation_accumulates_witness :
    ∃ r e m y g, requiredCheck {} = Except.ok r ∧ emailCheck {} = Except.ok e ∧
      memberCheck {} = Except.ok m ∧ ytCheck {} = Except.ok y ∧ ghCheck {} = Except.ok g ∧
      emptyBodyErrors = r ++ e ++ sdgCheck {} ++ m ++ y ++ g :=
  validation_accumulates_and_empty_body_nine_errors.2 {} emptyBodyErrors rfl

/-- C2: with the transporter unconfigured, every POST is answered by the
fixed 500 service-unavailable response with `success:false`, independent of
the request body, and no validation output or mail is produced. -/
theorem unconfigured_transport_short_circuits :
    ∀ (mode submissionId submissionDate : String) (sendOutcome : Option JsErr) (body : Payload),
      runHandler false mode submissionId submissionDate sendOutcome body =
        (notConfiguredResponse, []) ∧
      notConfiguredResponse.status = 500 ∧ notConfiguredResponse.success = false := by
  intro mode submissionId submissionDate sendOutcome body
  exact ⟨rfl, rfl, rfl⟩

/-- C5: the validator adds the team-member error exactly when teamMembers
is missing, not an array, or all entries are blank after trimming; in
particular `["", "  "]` is flagged while `["Alice", ""]` is not. -/
theorem team_member_rule :
    (∀ (p : Payload) (errs : List String), validateE p = Except.ok errs →
      ("Team Members (at least one member required)" ∈ errs ↔
        ¬ ∃ xs, p.teamMembers = some (JVal.arr xs) ∧
          ∃ v ∈ xs, ∃ s, v = JVal.str s ∧ jsTrim s ≠ "")) ∧
    "Team Members (at least one member required)" ∈
      errorsOf { teamMembers := some (JVal.arr [JVal.str "", JVal.str "  "]) } ∧
    "Team Members (at least one member required)" ∉
      errorsOf { teamMembers := some (JVal.arr [JVal.str "Alice", JVal.str ""]) } := by
  refine ⟨validate_mem_member, by decide, by decide⟩

/-- C5 witness: an empty body has no usable member entry and is flagged. -/
theorem team_member_rule_witness :
    "Team Members (at least one member required)" ∈ emptyBodyErrors ↔
      ¬ ∃ xs, (({} : Payload)).teamMembers = some (JVal.arr xs) ∧
        ∃ v ∈ xs, ∃ s, v = JVal.str s ∧ jsTrim s ≠ "" :=
  team_member_rule.1 {} emptyBodyErrors rfl

/-- C6: the member list is the trimmed non-blank entries in original order
numbered 1, 2, … contiguously, and the SDG list is the raw entries in
original order numbered 1, 2, … contiguously. -/
theorem formatter_numbering :
    ∀ (teamMembers : List String) (unsdgGoals : List JVal),
      formattedMembers teamMembers = String.intercalate "\n"
        (List.zipWith (fun n m => toString n ++ ". " ++ m)
          (List.range' 1 (teamMembers.filter (fun m => jsTrim m ≠ "")).length)
          ((teamMembers.filter (fun m => jsTrim m ≠ "")).map jsTrim)) ∧
      formattedSDGs unsdgGoals = String.intercalate "\n"
        (List.zipWith (fun n sdg => toString n ++ ". " ++ sdg)
          (List.range' 1 unsdgGoals.length) (unsdgGoals.map jsToStr)) := by
  intro teamMembers unsdgGoals
  constructor
  · rw [formattedMembers]
    have h := enumFrom_map_zipWith jsTrim (fun n m => toString n ++ ". " ++ m)
      (teamMembers.filter (fun m => jsTrim m ≠ "")) 0
    simp only [List.enum] at *
    rw [h]
  · rw [formattedSDGs]
    have h := enumFrom_map_zipWith jsToStr (fun n m => toString n ++ ". " ++ m) unsdgGoals 0
    simp only [List.enum] at *
    rw [h]

set_option maxHeartbeats 2000000 in
/-- C8: for both outbound mails the HTML body is the plain-text body with
every newline replaced by the `<br>` marker — equivalently, the text's
lines joined by `<br>` — and nothing else. -/
theorem html_body_is_text_with_breaks :
    ∀ (p : Payload) (submissionId submissionDate : String),
      (buildAdminMail p submissionId submissionDate).html.data =
        joinBR (splitLines (buildAdminMail p submissionId submissionDate).text.data) ∧
      (buildParticipantMail p submissionId submissionDate).html.data =
        joinBR (splitLines (buildParticipantMail p submissionId submissionDate).text.data) := by
  intro p submissionId submissionDate
  constructor
  · show jsReplaceLF ((adminEmailBody p submissionId submissionDate).data) =
      joinBR (splitLines ((adminEmailBody p submissionId submissionDate).data))
    exact jsReplaceLF_eq_joinBR _
  · show jsReplaceLF ((participantEmailBody p submissionId submissionDate).data) =
      joinBR (splitLines ((participantEmailBody p submissionId submissionDate).data))
    exact jsReplaceLF_eq_joinBR _

/-- C10: when validation fails, the handler returns 400 with the full error
list and dispatches no mail (no submission id, no body, no send happens). -/
theorem invalid_payload_sends_nothing :
    ∀ (p : Payload) (mode submissionId submissionDate : String)
      (sendOutcome : Option JsErr) (errs : List String),
      validateE p = Except.ok errs → errs ≠ [] →
      runHandler true mode submissionId submissionDate sendOutcome p =
        (validationFailedResponse errs, []) := by
  intro p mode submissionId submissionDate sendOutcome errs hv hne
  rw [runHandler]
  simp only [Bool.not_true, Bool.false_eq_true, ite_false, hv]
  rw [if_pos]
  exact List.length_pos.mpr hne

/-- C10 witness: the empty body fails validation and triggers the 400
path with no outbound mail. -/
theorem invalid_payload_sends_nothing_witness :
    runHandler true "production" "id" "date" none {} =
      (validationFailedResponse emptyBodyErrors, []) :=
  invalid_payload_sends_nothing {} "production" "id" "date" none emptyBodyErrors rfl
    (by decide)

end Mvp

namespace Mvp

lemma pushEmail_ok (p : Payload) (errors : List String)
    (hgood : jsTruthy p.teamEmail = true → ∃ s, p.teamEmail = some (JVal.str s)) :
    ∃ acc, pushEmail p errors = Except.ok acc := by
  rw [pushEmail]
  by_cases ht : jsTruthy p.teamEmail
  · obtain ⟨s, hs⟩ := hgood ht
    rw [if_pos ht, hs]
    show ∃ acc, (if emailRegexTest (jsTrim s) then Except.ok errors
        else Except.ok (errors ++ ["Team Email Address (must be a valid email format)"])) =
        Except.ok acc
    by_cases hr : emailRegexTest (jsTrim s)
    · exact ⟨errors, if_pos hr⟩
    · exact ⟨_, if_neg hr⟩
  · rw [if_neg ht]
    exact ⟨errors, rfl⟩

lemma pushMembers_error (p : Payload) (errors : List String)
    (xs : List JVal) (hxs : p.teamMembers = some (JVal.arr xs))
    (hbad : ∃ v ∈ xs, ∀ s, v ≠ JVal.str s) :
    pushMembers p errors = Except.error trimTypeError := by
  rw [pushMembers, hxs]
  rw [if_neg (by simp [jsTruthy, isArrOpt])]
  show (do
      let kept ← membersFilterE xs
      if kept.length = 0 then pure (errors ++ ["Team Members (at least one member required)"])
      else pure errors) = Except.error trimTypeError
  rw [membersFilterE_error xs hbad]
  rfl

/-- C3 counterexample: `youtubeLink = "   "` is blank after trimming, yet
the "must be a valid YouTube URL" error is produced (the guard is
truthiness, and a whitespace-only string is truthy). -/
theorem youtube_blank_after_trim_still_flagged :
    jsTrim "   " = "" ∧
    "YouTube Link (must be a valid YouTube URL)" ∈
      errorsOf { youtubeLink := some (JVal.str "   ") } := by
  exact ⟨rfl, by decide⟩

/-- C3 (amended): the URL format rules are guarded by truthiness rather
than non-blankness: a falsy youtubeLink/githubRepo (absent, null, `""`, …)
never yields a format error, while a present non-empty string — even a
whitespace-only one — yields the format error exactly when it contains none
of the recognized host substrings. -/
theorem url_format_rules_truthiness_guarded :
    ∀ (p : Payload) (errs : List String), validateE p = Except.ok errs →
      (jsTruthy p.youtubeLink = false →
        "YouTube Link (must be a valid YouTube URL)" ∉ errs) ∧
      (∀ s, p.youtubeLink = some (JVal.str s) → s ≠ "" →
        ("YouTube Link (must be a valid YouTube URL)" ∈ errs ↔
          jsIncludes s "youtube.com" = false ∧ jsIncludes s "youtu.be" = false)) ∧
      (jsTruthy p.githubRepo = false →
        "GitHub Repository (must be a valid GitHub URL)" ∉ errs) ∧
      (∀ s, p.githubRepo = some (JVal.str s) → s ≠ "" →
        ("GitHub Repository (must be a valid GitHub URL)" ∈ errs ↔
          jsIncludes s "github.com" = false)) := by
  intro p errs h
  refine ⟨?_, ?_, ?_, ?_⟩
  · intro hf hmem
    obtain ⟨s, hs, hne, _, _⟩ := (validate_mem_yt p errs h).mp hmem
    rw [hs] at hf
    simp [jsTruthy, hne] at hf
  · intro s hs hne
    rw [validate_mem_yt p errs h]
    constructor
    · rintro ⟨s', hs', _, h1, h2⟩
      rw [hs] at hs'
      simp only [Option.some.injEq, JVal.str.injEq] at hs'
      subst hs'
      exact ⟨h1, h2⟩
    · rintro ⟨h1, h2⟩
      exact ⟨s, hs, hne, h1, h2⟩
  · intro hf hmem
    obtain ⟨s, hs, hne, _⟩ := (validate_mem_gh p errs h).mp hmem
    rw [hs] at hf
    simp [jsTruthy, hne] at hf
  · intro s hs hne
    rw [validate_mem_gh p errs h]
    constructor
    · rintro ⟨s', hs', _, h1⟩
      rw [hs] at hs'
      simp only [Option.some.injEq, JVal.str.injEq] at hs'
      subst hs'
      exact h1
    · rintro h1
      exact ⟨s, hs, hne, h1⟩

/-- C3 witness: an absent youtubeLink produces no format error. -/
theorem url_format_rules_witness :
    "YouTube Link (must be a valid YouTube URL)" ∉ emptyBodyErrors :=
  (url_format_rules_truthiness_guarded {} emptyBodyErrors rfl).1 rfl

/-- C4 counterexample: teamEmail `""` is present and its trimmed value does
not match the email shape, yet no email-format error is produced (the empty
string is falsy, so the format check is skipped). -/
theorem empty_teamEmail_not_flagged :
    ({ teamEmail := some (JVal.str "") } : Payload).teamEmail = some (JVal.str "") ∧
    emailRegexTest (jsTrim "") = false ∧
    "Team Email Address (must be a valid email format)" ∉
      errorsOf { teamEmail := some (JVal.str "") } :=
  ⟨rfl, rfl, by decide⟩

/-- C4 (amended): for a present and non-empty teamEmail the validator adds
the email-format error exactly when the trimmed value does not have the
shape `local@domain.tld` (non-whitespace, non-`@` parts, domain containing
a dot); "nope", "a@b" and "a@.com" are flagged, "team@example.org" is
not. -/
theorem email_format_rule :
    (∀ (p : Payload) (errs : List String) (s : String),
      validateE p = Except.ok errs → p.teamEmail = some (JVal.str s) → s ≠ "" →
      ("Team Email Address (must be a valid email format)" ∈ errs ↔
        ¬ specEmailShape (jsTrim s))) ∧
    "Team Email Address (must be a valid email format)" ∈
      errorsOf { teamEmail := some (JVal.str "nope") } ∧
    "Team Email Address (must be a valid email format)" ∈
      errorsOf { teamEmail := some (JVal.str "a@b") } ∧
    "Team Email Address (must be a valid email format)" ∈
      errorsOf { teamEmail := some (JVal.str "a@.com") } ∧
    "Team Email Address (must be a valid email format)" ∉
      errorsOf { teamEmail := some (JVal.str "team@example.org") } := by
  refine ⟨?_, by decide, by decide, by decide, by decide⟩
  intro p errs s h hs hne
  rw [validate_mem_email p errs h]
  constructor
  · rintro ⟨s', hs', _, hr⟩ hspec
    rw [hs] at hs'
    simp only [Option.some.injEq, JVal.str.injEq] at hs'
    subst hs'
    rw [(emailRegexTest_iff_spec (jsTrim s)).mpr hspec] at hr
    cases hr
  · intro hnspec
    refine ⟨s, hs, hne, ?_⟩
    cases hq : emailRegexTest (jsTrim s) with
    | false => rfl
    | true => exact absurd ((emailRegexTest_iff_spec _).mp hq) hnspec

/-- C4 witness: at teamEmail "nope" the rule applies and flags the error. -/
theorem email_format_rule_witness :
    "Team Email Address (must be a valid email format)" ∈
      errorsOf { teamEmail := some (JVal.str "nope") } ↔
      ¬ specEmailShape (jsTrim "nope") :=
  email_format_rule.1 { teamEmail := some (JVal.str "nope") }
    (errorsOf { teamEmail := some (JVal.str "nope") }) "nope" rfl rfl (by decide)

end Mvp

namespace Mvp

/-- C7: the catch block's 500 response carries the administrator-contact
message exactly for authorization-flavored failures (message containing
"Unauthorized"), the try-again message exactly for the remaining
name-resolution failures (code `ENOTFOUND`), and the generic
processing-error message for everything else; the raw error detail is
attached only in the development deployment mode. -/
theorem delivery_error_mapping :
    ∀ (mode : String) (e : JsErr),
      (catchResponse mode e).status = 500 ∧ (catchResponse mode e).success = false ∧
      ((catchResponse mode e).message =
          "Email service configuration error. Please contact administrator." ↔
        (e.message ≠ "" ∧ jsIncludes e.message "Unauthorized" = true)) ∧
      ((catchResponse mode e).message = "Network connectivity issue. Please try again." ↔
        (¬(e.message ≠ "" ∧ jsIncludes e.message "Unauthorized" = true) ∧
          e.code = some "ENOTFOUND")) ∧
      ((catchResponse mode e).message =
          "An error occurred while processing your submission." ↔
        (¬(e.message ≠ "" ∧ jsIncludes e.message "Unauthorized" = true) ∧
          ¬ e.code = some "ENOTFOUND")) ∧
      (∀ d, (catchResponse mode e).error = some d →
        mode = "development" ∧ d = e.message) := by
  intro mode e
  have herr : ∀ d, (catchResponse mode e).error = some d →
      mode = "development" ∧ d = e.message := by
    intro d hd
    by_cases hm : mode = "development"
    · refine ⟨hm, ?_⟩
      have hsome : (catchResponse mode e).error = some e.message := by
        show (if mode = "development" then some e.message else none) = some e.message
        rw [if_pos hm]
      rw [hsome] at hd
      simpa using hd.symm
    · have hnone : (catchResponse mode e).error = none := by
        show (if mode = "development" then some e.message else none) = none
        rw [if_neg hm]
      rw [hnone] at hd
      cases hd
  have hmsg : (catchResponse mode e).message = deliveryErrorMessage e := rfl
  by_cases hA : (e.message != "" && jsIncludes e.message "Unauthorized") = true
  · have hAprop : e.message ≠ "" ∧ jsIncludes e.message "Unauthorized" = true := by
      simpa [Bool.and_eq_true, bne_iff_ne] using hA
    have hval : deliveryErrorMessage e =
        "Email service configuration error. Please contact administrator." := by
      rw [deliveryErrorMessage, if_pos hA]
    refine ⟨rfl, rfl, ?_, ?_, ?_, herr⟩
    · rw [hmsg, hval]; simp [hAprop.1, hAprop.2]
    · rw [hmsg, hval]
      constructor
      · intro hfalse; exact absurd hfalse (by decide)
      · rintro ⟨hn, _⟩; exact absurd hAprop hn
    · rw [hmsg, hval]
      constructor
      · intro hfalse; exact absurd hfalse (by decide)
      · rintro ⟨hn, _⟩; exact absurd hAprop hn
  · have hAprop : ¬(e.message ≠ "" ∧ jsIncludes e.message "Unauthorized" = true) := by
      intro hc
      exact hA (by simp [Bool.and_eq_true, bne_iff_ne, hc.1, hc.2])
    by_cases hC : e.code = some "ENOTFOUND"
    · have hval : deliveryErrorMessage e = "Network connectivity issue. Please try again." := by
        rw [deliveryErrorMessage, if_neg hA, if_pos hC]
      refine ⟨rfl, rfl, ?_, ?_, ?_, herr⟩
      · rw [hmsg, hval]
        constructor
        · intro hfalse; exact absurd hfalse (by decide)
        · intro hc; exact absurd hc hAprop
      · rw [hmsg, hval]; simp [hAprop, hC]
      · rw [hmsg, hval]
        constructor
        · intro hfalse; exact absurd hfalse (by decide)
        · rintro ⟨_, hn⟩; exact absurd hC hn
    · have hval : deliveryErrorMessage e =
          "An error occurred while processing your submission." := by
        rw [deliveryErrorMessage, if_neg hA, if_neg hC]
      refine ⟨rfl, rfl, ?_, ?_, ?_, herr⟩
      · rw [hmsg, hval]
        constructor
        · intro hfalse; exact absurd hfalse (by decide)
        · intro hc; exact absurd hc hAprop
      · rw [hmsg, hval]
        constructor
        · intro hfalse; exact absurd hfalse (by decide)
        · rintro ⟨_, hc⟩; exact absurd hc hC
      · rw [hmsg, hval]; simp [hAprop, hC]

/-- C7 witness: in development mode the attached detail is the raw error
message. -/
theorem delivery_error_mapping_witness :
    ("development" : String) = "development" ∧
      "boom" = (JsErr.mk "boom" none).message :=
  (delivery_error_mapping "development" ⟨"boom", none⟩).2.2.2.2.2 "boom" rfl

/-- C9 counterexample: a required field holding the number `0` is present
and not a string, yet the handler answers 400 (the falsy check
short-circuits before `.trim()` is reached), not 500. -/
theorem falsy_number_field_gives_400 :
    ({ teamName := some (JVal.num 0) } : Payload).teamName = some (JVal.num 0) ∧
    runHandler true "production" "id" "date" none { teamName := some (JVal.num 0) } =
      (validationFailedResponse emptyBodyErrors, []) :=
  ⟨rfl, rfl⟩

/-- C9 (amended): a required field holding a truthy non-string value, or a
teamMembers array containing a non-string entry (when every truthy
required field is a string), makes `.trim()` raise; the last-resort catch
then produces the 500 response with the generic processing-error message,
and no mail is dispatched. -/
theorem nonstring_values_yield_500 :
    ∀ (p : Payload) (mode submissionId submissionDate : String) (sendOutcome : Option JsErr),
      ((∃ fd ∈ requiredFields, jsTruthy (getField p fd.1) = true ∧
          ∀ s, getField p fd.1 ≠ some (JVal.str s)) ∨
        ((∀ fd ∈ requiredFields, jsTruthy (getField p fd.1) = true →
            ∃ s, getField p fd.1 = some (JVal.str s)) ∧
          ∃ xs, p.teamMembers = some (JVal.arr xs) ∧ ∃ v ∈ xs, ∀ s, v ≠ JVal.str s)) →
      runHandler true mode submissionId submissionDate sendOutcome p =
        (catchResponse mode trimTypeError, []) ∧
      (catchResponse mode trimTypeError).status = 500 ∧
      (catchResponse mode trimTypeError).message =
        "An error occurred while processing your submission." ∧
      (catchResponse mode trimTypeError).success = false := by
  intro p mode submissionId submissionDate sendOutcome hcase
  have hval : validateE p = Except.error trimTypeError := by
    rcases hcase with hbad | ⟨hgoodreq, xs, hxs, hbadm⟩
    · unfold validateE
      rw [pushRequired_error p requiredFields [] hbad]
      rfl
    · obtain ⟨acc1, h1⟩ := pushRequired_ok p requiredFields [] hgoodreq
      have hge : getField p "teamEmail" = p.teamEmail := rfl
      have hgem : jsTruthy p.teamEmail = true → ∃ s, p.teamEmail = some (JVal.str s) := by
        intro ht
        have hmem := hgoodreq ("teamEmail", "Team Email Address") (by decide)
        rw [hge] at hmem
        exact hmem ht
      obtain ⟨acc2, h2⟩ := pushEmail_ok p acc1 hgem
      unfold validateE
      rw [h1, except_bind_ok, h2, except_bind_ok]
      show (do
          let errors ← pushMembers p (pushSdg p acc2)
          let errors ← pushYt p errors
          pushGh p errors) = Except.error trimTypeError
      rw [pushMembers_error p _ xs hxs hbadm]
      rfl
  refine ⟨?_, rfl, rfl, rfl⟩
  simp only [runHandler, hval, Bool.not_true, Bool.false_eq_true, ite_false]

/-- C9 witness: teamName = 5 (truthy, non-string) yields the generic 500
with no mail. -/
theorem nonstring_values_yield_500_witness :
    runHandler true "production" "id" "date" none { teamName := some (JVal.num 5) } =
      (catchResponse "production" trimTypeError, []) ∧
    (catchResponse "production" trimTypeError).status = 500 ∧
    (catchResponse "production" trimTypeError).message =
      "An error occurred while processing your submission." ∧
    (catchResponse "production" trimTypeError).success = false :=
  nonstring_values_yield_500 { teamName := some (JVal.num 5) } "production" "id" "date" none
    (Or.inl ⟨("teamName", "Team Name"), by decide, by decide, by
      intro s h
      rw [show getField { teamName := some (JVal.num 5) } "teamName" =
        some (JVal.num 5) from rfl] at h
      simp at h⟩)

end Mvp
